import Mathlib

/-! A shallow embedding of `main.go` of the video-comparison server.

The server keeps four process-wide variables (`videoBuffers`, `isDownloaded`,
`isBigUrlDone`, `bigUrlValue`) and serves three handlers.  Every handler is
embedded as a function from the state before the request to the state after
it, together with the response written.

Conventions of the embedding:
* a byte is a natural number below 256, a buffer (`[]byte`) a list of bytes;
* the map `videoBuffers.data` is an association list with at most one pair
  per key in use (`Store.get`, `Store.put`);
* the outcome of `json.NewDecoder(r.Body).Decode(&req)` is an
  `Option VideoRequest`, `none` standing for a decoding error;
* the network is a function `Net` from a URL to what `http.Get` and
  `io.ReadAll` yield for it;
* the goroutines of one chunk are interleaved by an explicit schedule
  (`Action`), so that every order of membership checks and task completions
  the Go runtime can produce is covered;
* log output is not part of the model.
-/

namespace VideoComparison

/-! ## Data model -/

/-- Buffers are Go byte slices: lists of numbers below 256. -/
abbrev Bytes := List Nat

/-- Go struct `VideoData`. -/
structure VideoData where
  MediaLink : String
  ID : String
deriving DecidableEq, Repr

/-- Go struct `VideoRequest`. -/
structure VideoRequest where
  URL : String
  Data : List VideoData
  IsBigUrlDone : Int
deriving DecidableEq, Repr

/-- The map `videoBuffers.data`, as an association list. -/
abbrev Store := List (String × Bytes)

/-- Map lookup `videoBuffers.data[id]`: `none` when the key is absent. -/
def Store.get : Store → String → Option Bytes
  | [], _ => none
  | (k, v) :: rest, id => if k = id then some v else Store.get rest id

/-- Map assignment `videoBuffers.data[id] = buffer`: the value of an existing
key is replaced, a new key gets a new entry. -/
def Store.put : Store → String → Bytes → Store
  | [], id, buf => [(id, buf)]
  | (k, v) :: rest, id, buf =>
    if k = id then (k, buf) :: rest else (k, v) :: Store.put rest id buf

/-- The keys of the map, one per entry. -/
def Store.keys (s : Store) : List String := s.map Prod.fst

/-- The process-wide variables of `main.go`. -/
structure State where
  videoBuffers : Store
  isDownloaded : Bool
  isBigUrlDone : Int
  bigUrlValue : String
deriving DecidableEq, Repr

/-- The state at process start: an empty map and Go zero values. -/
def State.init : State :=
  { videoBuffers := [], isDownloaded := false, isBigUrlDone := 0, bigUrlValue := "" }

/-- What a handler writes to the `http.ResponseWriter`. -/
inductive Response where
  /-- Call `w.WriteHeader(code)` with no body. -/
  | header (code : Nat)
  /-- Call `http.Error(w, msg, code)`. -/
  | error (code : Nat) (msg : String)
  /-- Call `http.Error` with the base64 decoder's error formatted into the text. -/
  | decodeError (code : Nat)
  /-- Status 200 with the JSON encoding of `VideoComparisonResponse`. -/
  | json (results : List String)
deriving DecidableEq, Repr

/-- The HTTP status code of a response. -/
def Response.status : Response → Nat
  | .header c => c
  | .error c _ => c
  | .decodeError c => c
  | .json _ => 200

/-- The comparison results a response carries, if it carries any. -/
def Response.results : Response → Option (List String)
  | .json r => some r
  | _ => none

/-! ## `crypto/sha1` and `encoding/hex` -/

/-- Rotate a 32-bit word left by `n` bits. -/
def rotl32 (x n : Nat) : Nat := ((x <<< n) ||| (x >>> (32 - n))) % 2 ^ 32

/-- Big-endian bytes of the low `8 * n` bits of `x`. -/
def beBytes : Nat → Nat → Bytes
  | 0, _ => []
  | n + 1, x => (x >>> (8 * n)) % 256 :: beBytes n x

/-- Big-endian value of a list of bytes. -/
def beValue (bs : Bytes) : Nat := bs.foldl (fun acc b => acc * 256 + b % 256) 0

/-- SHA-1 padding: a 0x80 byte, zeros up to 56 modulo 64, the bit length. -/
def sha1Pad (msg : Bytes) : Bytes :=
  msg ++ [0x80] ++ List.replicate ((119 - msg.length % 64) % 64) 0
    ++ beBytes 8 ((msg.length * 8) % 2 ^ 64)

/-- Split a padded message into 64-byte blocks. -/
def sha1Blocks : Nat → Bytes → List Bytes
  | 0, _ => []
  | n + 1, bs => bs.take 64 :: sha1Blocks n (bs.drop 64)

/-- The sixteen big-endian words of a block. -/
def sha1Words (block : Bytes) : List Nat :=
  (List.range 16).map (fun t => beValue ((block.drop (4 * t)).take 4))

/-- Extend the message schedule by `n` words. -/
def sha1Extend : Nat → List Nat → List Nat
  | 0, w => w
  | n + 1, w =>
    let t := w.length
    sha1Extend n (w ++ [rotl32 (w.getD (t - 3) 0 ^^^ w.getD (t - 8) 0
      ^^^ w.getD (t - 14) 0 ^^^ w.getD (t - 16) 0) 1])

/-- The five chaining words. -/
structure Sha1State where
  a : Nat
  b : Nat
  c : Nat
  d : Nat
  e : Nat
deriving DecidableEq, Repr

/-- One of the eighty rounds. -/
def sha1Round (s : Sha1State) (t w : Nat) : Sha1State :=
  let not32 (x : Nat) : Nat := 2 ^ 32 - 1 - x
  let f : Nat :=
    if t < 20 then (s.b &&& s.c) ||| (not32 s.b &&& s.d)
    else if t < 40 then s.b ^^^ s.c ^^^ s.d
    else if t < 60 then (s.b &&& s.c) ||| (s.b &&& s.d) ||| (s.c &&& s.d)
    else s.b ^^^ s.c ^^^ s.d
  let k : Nat :=
    if t < 20 then 0x5A827999
    else if t < 40 then 0x6ED9EBA1
    else if t < 60 then 0x8F1BBCDC
    else 0xCA62C1D6
  { a := (rotl32 s.a 5 + f + s.e + k + w) % 2 ^ 32
    b := s.a
    c := rotl32 s.b 30
    d := s.c
    e := s.d }

/-- Compress one block into the chaining value. -/
def sha1Block (h : Sha1State) (block : Bytes) : Sha1State :=
  let w := sha1Extend 64 (sha1Words block)
  let r := (List.range 80).foldl (fun s t => sha1Round s t (w.getD t 0)) h
  { a := (h.a + r.a) % 2 ^ 32
    b := (h.b + r.b) % 2 ^ 32
    c := (h.c + r.c) % 2 ^ 32
    d := (h.d + r.d) % 2 ^ 32
    e := (h.e + r.e) % 2 ^ 32 }

/-- The 20-byte SHA-1 digest (`sha1.New`, `Write`, `Sum(nil)`). -/
def sha1 (msg : Bytes) : Bytes :=
  let padded := sha1Pad msg
  let h := (sha1Blocks (padded.length / 64) padded).foldl sha1Block
    { a := 0x67452301, b := 0xEFCDAB89, c := 0x98BADCFE, d := 0x10325476, e := 0xC3D2E1F0 }
  beBytes 4 h.a ++ beBytes 4 h.b ++ beBytes 4 h.c ++ beBytes 4 h.d ++ beBytes 4 h.e

/-- One lower-case hexadecimal digit. -/
def hexDigit (n : Nat) : Char := "0123456789abcdef".toList.getD n '0'

/-- Lower-case hexadecimal text of a buffer (`hex.EncodeToString`). -/
def hexEncode (bs : Bytes) : String :=
  String.mk (bs.flatMap (fun b => [hexDigit (b / 16 % 16), hexDigit (b % 16)]))

/-! ## `computeHash` and `areVideosIdentical` -/

/-- Go `computeHash`: the hex text of the SHA-1 digest. -/
def computeHash (data : Bytes) : String := hexEncode (sha1 data)

/-- Go `areVideosIdentical`: reject on a digest mismatch, then on a length
mismatch, then scan the indices of `buffer1` for a differing byte. -/
def areVideosIdentical (hash1 : String) (buffer1 buffer2 : Bytes) : Bool :=
  let hash2 := computeHash buffer2
  if hash1 ≠ hash2 then false
  else if buffer1.length ≠ buffer2.length then false
  else (List.range buffer1.length).all (fun i => buffer1.getD i 0 == buffer2.getD i 0)

/-! ## `encoding/base64`: `StdEncoding.DecodeString` -/

/-- The decode map of the standard alphabet: the 6-bit value of a character,
`none` for a character outside the alphabet. -/
def decodeMap (c : Char) : Option Nat :=
  let n := c.toNat
  if 65 ≤ n ∧ n ≤ 90 then some (n - 65)
  else if 97 ≤ n ∧ n ≤ 122 then some (n - 97 + 26)
  else if 48 ≤ n ∧ n ≤ 57 then some (n - 48 + 52)
  else if n = 43 then some 62
  else if n = 47 then some 63
  else none

/-- The decoder skips carriage returns and line feeds. -/
def isNewline (c : Char) : Bool := c.toNat = 10 || c.toNat = 13

/-- Skip over newlines. -/
def skipNewlines (src : List Char) : List Char := src.dropWhile isNewline

/-- Convert (up to) four 6-bit values into three bytes. -/
def quantumBytes (dbuf : List Nat) : Bytes :=
  let val := (dbuf.getD 0 0 <<< 18) ||| (dbuf.getD 1 0 <<< 12)
    ||| (dbuf.getD 2 0 <<< 6) ||| dbuf.getD 3 0
  [(val >>> 16) % 256, (val >>> 8) % 256, val % 256]

/-- The decoder loop: `dbuf` holds the 6-bit values of the quantum being
read, `out` the bytes decoded so far.  A quantum of four values yields three
bytes; padding closes the input after two or three values and yields one or
two bytes; anything else is a `CorruptInputError` (`none`). -/
def decodeLoop : List Char → List Nat → Bytes → Option Bytes
  | [], dbuf, out => if dbuf.length = 0 then some out else none
  | c :: rest, dbuf, out =>
    match decodeMap c with
    | some v =>
      if dbuf.length = 3 then decodeLoop rest [] (out ++ quantumBytes (dbuf ++ [v]))
      else decodeLoop rest (dbuf ++ [v]) out
    | none =>
      if isNewline c then decodeLoop rest dbuf out
      else if c ≠ '=' then none
      else if dbuf.length < 2 then none
      else if dbuf.length = 2 then
        match skipNewlines rest with
        | [] => none
        | c2 :: rest2 =>
          if c2 ≠ '=' then none
          else if skipNewlines rest2 = [] then some (out ++ (quantumBytes dbuf).take 1)
          else none
      else if skipNewlines rest = [] then some (out ++ (quantumBytes dbuf).take 2)
      else none

/-- Go `base64.StdEncoding.DecodeString`: `none` when it returns an error. -/
def base64Decode (s : String) : Option Bytes := decodeLoop s.toList [] []

/-! ## `CompareHandler` and `TriggerHandler` -/

/-- The text the regular expression of `CompareHandler` matches. -/
def dataURLHead : List Char := "data:video/mp4;base64,".toList

/-- Go `re.ReplaceAllString(req.URL, "")` for the anchored expression
`^data:video\/mp4;base64,`: the text is dropped where it starts the URL. -/
def cleanURL (url : String) : String :=
  if dataURLHead.isPrefixOf url.toList then String.mk (url.toList.drop dataURLHead.length)
  else url

/-- The loop over `req.Data` of `CompareHandler`: append the id of every item
whose buffer exists and is identical to `buffer1`. -/
def compareLoop (store : Store) (hash1 : String) (buffer1 : Bytes) :
    List VideoData → List String → List String
  | [], results => results
  | item :: rest, results =>
    match store.get item.ID with
    | some buffer2 =>
      if areVideosIdentical hash1 buffer1 buffer2 then
        compareLoop store hash1 buffer1 rest (results ++ [item.ID])
      else compareLoop store hash1 buffer1 rest results
    | none => compareLoop store hash1 buffer1 rest results

/-- Go `CompareHandler`, from the method, the outcome of decoding the body and
the state before, to the state after and the response. -/
def CompareHandler (st : State) (method : String) (body : Option VideoRequest) :
    State × Response :=
  if method = "OPTIONS" then (st, .header 200)
  else if method ≠ "POST" then (st, .error 405 "Method not allowed")
  else if !st.isDownloaded then (st, .error 400 "Videos are not fully downloaded")
  else
    match body with
    | none => (st, .error 400 "Invalid request body")
    | some req =>
      let st1 := { st with isBigUrlDone := req.IsBigUrlDone }
      if st1.isBigUrlDone = 1 then
        ({ st1 with bigUrlValue := req.URL }, .error 200 "Processing big URL part 1")
      else
        let st2 :=
          if st1.isBigUrlDone = 2 then
            { st1 with bigUrlValue := st1.bigUrlValue ++ req.URL, isBigUrlDone := 0 }
          else st1
        let url := if st1.isBigUrlDone = 2 then st2.bigUrlValue else req.URL
        let cleanedURL := cleanURL url
        match base64Decode cleanedURL with
        | none => (st2, .decodeError 400)
        | some buffer1 =>
          let hash1 := computeHash buffer1
          (st2, .json (compareLoop st2.videoBuffers hash1 buffer1 req.Data []))

/-- Go `TriggerHandler`. -/
def TriggerHandler (st : State) (method : String) : State × Response :=
  if method ≠ "GET" then (st, .error 405 "Method not allowed")
  else (st, .header 200)

/-! ## `downloadFileToBuffer` and the network -/

/-- What `http.Get(url)` followed by `io.ReadAll(resp.Body)` can yield. -/
inductive GetResult where
  /-- The call `http.Get` returns an error. -/
  | transportError
  /-- A response with a status code; `body` is `none` when reading it fails. -/
  | response (statusCode : Nat) (body : Option Bytes)
deriving DecidableEq, Repr

/-- The network, seen from the server: what a GET of a URL yields. -/
abbrev Net := String → GetResult

/-- Go `downloadFileToBuffer`: the body of a 200 response, `none` for each of
the three error returns. -/
def downloadFileToBuffer (net : Net) (url : String) : Option Bytes :=
  match net url with
  | .transportError => none
  | .response statusCode body => if statusCode ≠ 200 then none else body

/-! ## `DownloadHandler` -/

/-- The observable steps inside one chunk of the download loop. -/
inductive Event where
  /-- The membership check of an item under the read lock, with its result. -/
  | check (item : VideoData) (found : Bool)
  /-- A goroutine is started for an item (`wg.Add(1)` and `go func`). -/
  | launch (item : VideoData)
  /-- A goroutine returns: `ok` tells whether it wrote a buffer to the map. -/
  | settle (item : VideoData) (ok : Bool)
deriving DecidableEq, Repr

/-- A step of the trace: the event and the process-wide state right after it. -/
abbrev Step := Event × State

/-- A scheduling decision inside a chunk: the handler's own goroutine does its
next membership check, or the `k`-th unfinished task finishes. -/
inductive Action where
  | main
  | finish (k : Nat)
deriving DecidableEq, Repr

/-- The body of the inner `for` loop for one item: check membership and, when
the id is absent, start a task for it. -/
def checkItem (item : VideoData) (pending : List VideoData) (st : State) :
    List VideoData × List Step :=
  if (st.videoBuffers.get item.ID).isSome then (pending, [(.check item true, st)])
  else (pending ++ [item], [(.check item false, st), (.launch item, st)])

/-- The body of the goroutine: download, and on success write the buffer into
the map under the write lock. -/
def settleTask (net : Net) (item : VideoData) (st : State) : State × Step :=
  match downloadFileToBuffer net item.MediaLink with
  | some buffer =>
    let st1 := { st with videoBuffers := st.videoBuffers.put item.ID buffer }
    (st1, (.settle item true, st1))
  | none => (st, (.settle item false, st))

/-- The barrier `wg.Wait()`: every task still running finishes. -/
def settleAll (net : Net) : List VideoData → State → State × List Step
  | [], st => (st, [])
  | task :: rest, st =>
    let r := settleTask net task st
    let r2 := settleAll net rest r.1
    (r2.1, r.2 :: r2.2)

/-- The rest of a chunk once the schedule is used up: the remaining membership
checks in order, then the barrier. -/
def drainChunk (net : Net) : List VideoData → List VideoData → State → State × List Step
  | [], pending, st => settleAll net pending st
  | item :: rest, pending, st =>
    let c := checkItem item pending st
    let r := drainChunk net rest c.1 st
    (r.1, c.2 ++ r.2)

/-- One chunk under a schedule: `items` are the items not yet checked,
`pending` the tasks started and not yet finished.  A decision that cannot be
taken (no item left, no such task) is passed over. -/
def runChunk (net : Net) : List Action → List VideoData → List VideoData → State →
    State × List Step
  | [], items, pending, st => drainChunk net items pending st
  | .main :: acts, [], pending, st => runChunk net acts [] pending st
  | .main :: acts, item :: rest, pending, st =>
    let c := checkItem item pending st
    let r := runChunk net acts rest c.1 st
    (r.1, c.2 ++ r.2)
  | .finish k :: acts, items, pending, st =>
    match pending.get? k with
    | none => runChunk net acts items pending st
    | some task =>
      let r := settleTask net task st
      let r2 := runChunk net acts items (pending.eraseIdx k) r.1
      (r2.1, r.2 :: r2.2)

/-- The record of one iteration of the outer loop, which ends at `wg.Wait()`. -/
structure ChunkLog where
  /-- The loop variable `i`. -/
  start : Nat
  /-- The variable `end` after the clamp. -/
  stop : Nat
  /-- The slice `req.Data[i:end]`. -/
  items : List VideoData
  /-- The state after the clamp, before the first membership check. -/
  entry : State
  /-- The checks, launches and task completions of the chunk. -/
  steps : List Step
  /-- The state when `wg.Wait()` returns. -/
  atBarrier : State
deriving DecidableEq, Repr

/-- The constant `chunkSize`. -/
def chunkSize : Nat := 8

/-- The outer `for i := 0; i < totalVideos; i += chunkSize` loop, from the
value of `i`.  `sched i` is the schedule of the chunk starting at `i`.  The
first argument bounds the number of iterations; `DownloadHandler` passes
`totalVideos`, which the loop never uses up. -/
def downloadLoop (net : Net) (sched : Nat → List Action) (data : List VideoData) :
    Nat → Nat → State → State × List ChunkLog
  | 0, _, st => (st, [])
  | fuel + 1, i, st =>
    let totalVideos := data.length
    if i < totalVideos then
      let stop := if i + chunkSize ≥ totalVideos then totalVideos else i + chunkSize
      let st1 := if i + chunkSize ≥ totalVideos then { st with isDownloaded := true } else st
      let items := (data.drop i).take (stop - i)
      let r := runChunk net (sched i) items [] st1
      let r2 := downloadLoop net sched data fuel (i + chunkSize) r.1
      (r2.1, { start := i, stop := stop, items := items, entry := st1, steps := r.2,
               atBarrier := r.1 } :: r2.2)
    else (st, [])

/-- What a download request leaves behind. -/
structure Outcome where
  state : State
  response : Response
  chunks : List ChunkLog
deriving DecidableEq, Repr

/-- Go `DownloadHandler`. -/
def DownloadHandler (net : Net) (sched : Nat → List Action) (st : State) (method : String)
    (body : Option VideoRequest) : Outcome :=
  if method = "OPTIONS" then { state := st, response := .header 200, chunks := [] }
  else if method ≠ "POST" then
    { state := st, response := .error 405 "Method not allowed", chunks := [] }
  else
    let st1 := { st with isDownloaded := false }
    match body with
    | none => { state := st1, response := .error 400 "Invalid request body", chunks := [] }
    | some req =>
      let r := downloadLoop net sched req.Data req.Data.length 0 st1
      { state := r.1, response := .header 200, chunks := r.2 }

/-! ## Example inputs -/

/-- A store holding the bytes `ABC` under `a` and `ABD` under `b`. -/
def exStore : Store := [("a", [65, 66, 67]), ("b", [65, 66, 68])]

/-- A state after a finished download, with `exStore` as the map. -/
def exReady : State :=
  { videoBuffers := exStore, isDownloaded := true, isBigUrlDone := 0, bigUrlValue := "" }

/-- A state after a phase-1 request that delivered the text `QU`. -/
def exHalfway : State :=
  { videoBuffers := exStore, isDownloaded := true, isBigUrlDone := 1, bigUrlValue := "QU" }

/-- A network on which every request fails. -/
def exNetDown : Net := fun _ => .transportError

/-- The schedule that leaves every chunk to its default order. -/
def exNoSchedule : Nat → List Action := fun _ => []

/-- A network that serves three links and fails on every other one. -/
def exNet : Net := fun url =>
  if url = "l1" then .response 200 (some [1])
  else if url = "l2" then .response 200 (some [2, 2])
  else if url = "gone" then .response 404 (some [4, 0, 4])
  else if url = "cut" then .response 200 none
  else .transportError

/-- A batch of ten items with pairwise distinct ids. -/
def exBatch10 : List VideoData :=
  [⟨"l1", "v0"⟩, ⟨"l2", "v1"⟩, ⟨"gone", "v2"⟩, ⟨"l1", "v3"⟩, ⟨"cut", "v4"⟩,
   ⟨"l2", "v5"⟩, ⟨"l1", "v6"⟩, ⟨"down", "v7"⟩, ⟨"l1", "v8"⟩, ⟨"l2", "v9"⟩]

/-- A schedule that lets the first task finish between two checks. -/
def exSchedule : Nat → List Action := fun _ => [.main, .finish 0, .main, .main, .finish 1]

/-! ## Specification-side definitions -/

/-- The `k`-th chunk as the specification words it: the consecutive slice
`items[8k .. min(8k+8, N))` of a list of `N` items. -/
def chunkSlice (items : List VideoData) (k : Nat) : List VideoData :=
  (items.drop (8 * k)).take (min (8 * k + 8) items.length - 8 * k)

/-- Tell whether an event is the start of a fetch task. -/
def Event.isLaunch : Event → Bool
  | .launch _ => true
  | _ => false

/-- The number of fetch tasks started in a list of steps. -/
def launchCount (steps : List Step) : Nat := steps.countP (fun s => s.1.isLaunch)

/-- The store only grows: what `st0` holds is still held, no task is started
for an id `st0` holds, and the keys stay free of repetitions. -/
def Grows (st0 : Store) (st : State) : Prop :=
  (∀ x b, st0.get x = some b → st.videoBuffers.get x = some b)
    ∧ (st0.keys.Nodup → st.videoBuffers.keys.Nodup)

/-- No task is started for an id the store `st0` holds. -/
def FreshLaunch (st0 : Store) (s : Step) : Prop :=
  ∀ item, s.1 = .launch item → st0.get item.ID = none

/-- What a store `s` extended by the successful fetches of `items` holds: `b`
is reachable under `x` when `s` holds it, or `s` holds nothing under `x` and
an item with id `x` fetches `b`. -/
def Reach (net : Net) (s : Store) (items : List VideoData) (x : String) (b : Bytes) : Prop :=
  s.get x = some b
    ∨ (s.get x = none
      ∧ ∃ it ∈ items, it.ID = x ∧ downloadFileToBuffer net it.MediaLink = some b)

/-- The store `st` is the store `st0` extended by the successful fetches of
`items`. -/
def Fetched (net : Net) (st0 : Store) (items : List VideoData) (st : Store) : Prop :=
  ∀ x b, st.get x = some b ↔ Reach net st0 items x b

/-! # Theorems -/

/-! ## Identity comparator -/

theorem scan_eq_true_iff (b1 b2 : Bytes) (hlen : b1.length = b2.length) :
    (List.range b1.length).all (fun i => b1.getD i 0 == b2.getD i 0) = true ↔ b1 = b2 := by
  constructor
  · intro h
    rw [List.all_eq_true] at h
    apply List.ext_getElem hlen
    intro i h1 h2
    have hi := h i (List.mem_range.mpr h1)
    simp only [beq_iff_eq] at hi
    rw [List.getD_eq_getElem _ _ h1, List.getD_eq_getElem _ _ h2] at hi
    exact hi
  · rintro rfl
    simp

theorem areVideosIdentical_computeHash (b1 b2 : Bytes) :
    areVideosIdentical (computeHash b1) b1 b2 = true ↔ b1 = b2 := by
  unfold areVideosIdentical
  by_cases hh : computeHash b1 = computeHash b2
  · by_cases hl : b1.length = b2.length
    · rw [if_neg (fun h => h hh), if_neg (fun h => h hl)]
      exact scan_eq_true_iff b1 b2 hl
    · have hne : b1 ≠ b2 := fun h => hl (by rw [h])
      simp [hh, hl, hne]
  · have hne : b1 ≠ b2 := fun h => hh (by rw [h])
    simp [hh, hne]

theorem compareLoop_eq_filter (store : Store) (r : Bytes) (d : List VideoData)
    (acc : List String) :
    compareLoop store (computeHash r) r d acc
      = acc ++ (d.filter (fun item => store.get item.ID = some r)).map (fun item => item.ID) := by
  induction d generalizing acc with
  | nil => simp [compareLoop]
  | cons item rest ih =>
    unfold compareLoop
    cases hget : store.get item.ID with
    | none => simp [ih, List.filter_cons, hget]
    | some buffer2 =>
      by_cases hb : r = buffer2
      · subst hb
        have hid := (areVideosIdentical_computeHash r r).mpr rfl
        simp [ih, List.filter_cons, hget, hid]
      · have hid : areVideosIdentical (computeHash r) r buffer2 = false := by
          cases h : areVideosIdentical (computeHash r) r buffer2 with
          | false => rfl
          | true => exact absurd ((areVideosIdentical_computeHash r buffer2).mp h) hb
        have hb2 : ¬ buffer2 = r := fun h => hb h.symm
        simp [ih, List.filter_cons, hget, hid, hb2]

theorem cleanURL_head (rest : String) :
    cleanURL ("data:video/mp4;base64," ++ rest) = rest := by
  have h : dataURLHead.isPrefixOf ("data:video/mp4;base64," ++ rest).toList = true := by
    rw [ List.isPrefixOf_iff_prefix]
    exact ⟨rest.toList, by simp [dataURLHead, String.toList]⟩
  unfold cleanURL
  rw [if_pos h]
  simp [dataURLHead, String.toList]

theorem cleanURL_other (u : String) (h : dataURLHead.isPrefixOf u.toList = false) :
    cleanURL u = u := by
  unfold cleanURL
  rw [if_neg (by rw [h]; exact Bool.false_ne_true)]

theorem compare_phase0 (st : State) (u : String) (d : List VideoData)
    (hflag : st.isDownloaded = true) :
    CompareHandler st "POST" (some ⟨u, d, 0⟩)
      = match base64Decode (cleanURL u) with
        | none => ({ st with isBigUrlDone := 0 }, .decodeError 400)
        | some r => ({ st with isBigUrlDone := 0 },
            .json (compareLoop st.videoBuffers (computeHash r) r d [])) := by
  simp [CompareHandler, hflag]

/-- C2: `areVideosIdentical(computeHash(b1), b1, b2)` is true exactly when `b1`
and `b2` are the same byte sequence, whatever their lengths. -/
theorem areVideosIdentical_iff_eq (b1 b2 : Bytes) :
    areVideosIdentical (computeHash b1) b1 b2 = true ↔ b1 = b2 :=
  areVideosIdentical_computeHash b1 b2

/-- C1: in phase 0 with the completeness flag set, when the URL without its
leading data-URL head decodes to `r`, the handler answers with the candidate
ids, in the caller's order and with repetitions, whose stored buffer is `r`. -/
theorem compare_returns_matching_ids (st : State) (u : String) (d : List VideoData)
    (r : Bytes) (hflag : st.isDownloaded = true)
    (hdec : base64Decode (cleanURL u) = some r) :
    (CompareHandler st "POST" (some ⟨u, d, 0⟩)).2
      = .json ((d.filter (fun item => st.videoBuffers.get item.ID = some r)).map
          (fun item => item.ID)) := by
  rw [compare_phase0 st u d hflag, hdec]
  simp [compareLoop_eq_filter]

/-- Witness for C1: the URL `data:video/mp4;base64,QUJD` against the store
with `ABC` under `a` and `ABD` under `b` gives the results `[a]`. -/
theorem compare_returns_matching_ids_witness :
    exReady.isDownloaded = true
      ∧ base64Decode (cleanURL "data:video/mp4;base64,QUJD") = some [65, 66, 67]
      ∧ (CompareHandler exReady "POST"
          (some ⟨"data:video/mp4;base64,QUJD", [⟨"", "a"⟩, ⟨"", "b"⟩], 0⟩)).2 = .json ["a"] :=
  ⟨rfl, by decide,
    (compare_returns_matching_ids exReady "data:video/mp4;base64,QUJD"
      [⟨"", "a"⟩, ⟨"", "b"⟩] [65, 66, 67] rfl (by decide)).trans (by decide)⟩

/-- C8: a POST to `/compare` while the completeness flag is false is answered
with status 400, carries no comparison result and leaves the state as it was,
for every body and every phase value. -/
theorem compare_refused_until_downloaded (st : State) (body : Option VideoRequest)
    (hflag : st.isDownloaded = false) :
    CompareHandler st "POST" body = (st, .error 400 "Videos are not fully downloaded")
      ∧ (CompareHandler st "POST" body).2.status = 400
      ∧ (CompareHandler st "POST" body).2.results = none
      ∧ (CompareHandler st "POST" body).1 = st := by
  have h : CompareHandler st "POST" body
      = (st, .error 400 "Videos are not fully downloaded") := by
    simp [CompareHandler, hflag]
  rw [h]
  exact ⟨rfl, rfl, rfl, rfl⟩

/-- Witness for C8: a well-formed phase-0 request in the initial state. -/
theorem compare_refused_until_downloaded_witness :
    State.init.isDownloaded = false
      ∧ CompareHandler State.init "POST" (some ⟨"QUJD", [⟨"", "a"⟩], 0⟩)
          = (State.init, .error 400 "Videos are not fully downloaded") :=
  ⟨rfl, (compare_refused_until_downloaded State.init (some ⟨"QUJD", [⟨"", "a"⟩], 0⟩) rfl).1⟩

/-- C6: with the flag set, a phase-1 request stores its text as it is, answers
200 with the acknowledgment and carries no result; the phase-2 request that
follows answers what a phase-0 request with the concatenated text answers
against the same store, and leaves the phase counter at 0. -/
theorem two_phase_equals_single (st st0 : State) (p q : String) (d1 d : List VideoData)
    (hflag : st.isDownloaded = true) (hflag0 : st0.isDownloaded = true)
    (hstore : st0.videoBuffers = st.videoBuffers) :
    (CompareHandler st "POST" (some ⟨p, d1, 1⟩)).2 = .error 200 "Processing big URL part 1"
      ∧ (CompareHandler st "POST" (some ⟨p, d1, 1⟩)).2.results = none
      ∧ (CompareHandler st "POST" (some ⟨p, d1, 1⟩)).1
          = { st with isBigUrlDone := 1, bigUrlValue := p }
      ∧ (CompareHandler (CompareHandler st "POST" (some ⟨p, d1, 1⟩)).1 "POST"
            (some ⟨q, d, 2⟩)).2
          = (CompareHandler st0 "POST" (some ⟨p ++ q, d, 0⟩)).2
      ∧ (CompareHandler (CompareHandler st "POST" (some ⟨p, d1, 1⟩)).1 "POST"
            (some ⟨q, d, 2⟩)).1.isBigUrlDone = 0 := by
  have h1 : CompareHandler st "POST" (some ⟨p, d1, 1⟩)
      = ({ st with isBigUrlDone := 1, bigUrlValue := p },
          .error 200 "Processing big URL part 1") := by
    simp [CompareHandler, hflag]
  rw [h1, compare_phase0 st0 (p ++ q) d hflag0]
  refine ⟨rfl, rfl, rfl, ?_, ?_⟩
  · simp only [CompareHandler, hflag, hstore]
    simp
    cases base64Decode (cleanURL (p ++ q)) <;> simp
  · simp only [CompareHandler, hflag]
    simp
    cases base64Decode (cleanURL (p ++ q)) <;> simp

/-- Witness for C6: `QU` then `JD` against the example store, compared with the
single request `QUJD`. -/
theorem two_phase_equals_single_witness :
    (CompareHandler exReady "POST" (some ⟨"QU", [], 1⟩)).2
        = .error 200 "Processing big URL part 1"
      ∧ (CompareHandler (CompareHandler exReady "POST" (some ⟨"QU", [], 1⟩)).1 "POST"
            (some ⟨"JD", [⟨"", "b"⟩, ⟨"", "a"⟩], 2⟩)).2
          = (CompareHandler exHalfway "POST" (some ⟨"QUJD", [⟨"", "b"⟩, ⟨"", "a"⟩], 0⟩)).2 :=
  have h := two_phase_equals_single exReady exHalfway "QU" "JD" [] [⟨"", "b"⟩, ⟨"", "a"⟩]
    rfl rfl rfl
  ⟨h.1, h.2.2.2.1⟩

/-- C5, counterexample: three rejected requests that change the state.  A
`/download` POST with a malformed body clears a set completeness flag; a
phase-0 `/compare` POST with invalid base64 resets a phase counter that was 1;
a phase-2 `/compare` POST with invalid base64 extends the accumulator. -/
theorem rejected_request_changes_state :
    ((DownloadHandler exNetDown exNoSchedule exReady "POST" none).response.status = 400
        ∧ exReady.isDownloaded = true
        ∧ (DownloadHandler exNetDown exNoSchedule exReady "POST" none).state.isDownloaded
            = false)
      ∧ (base64Decode (cleanURL "!") = none
        ∧ (CompareHandler exHalfway "POST" (some ⟨"!", [], 0⟩)).2.status = 400
        ∧ exHalfway.isBigUrlDone = 1
        ∧ (CompareHandler exHalfway "POST" (some ⟨"!", [], 0⟩)).1.isBigUrlDone = 0)
      ∧ (base64Decode (cleanURL ("QU" ++ "!")) = none
        ∧ (CompareHandler exHalfway "POST" (some ⟨"!", [], 2⟩)).2.status = 400
        ∧ exHalfway.bigUrlValue = "QU"
        ∧ (CompareHandler exHalfway "POST" (some ⟨"!", [], 2⟩)).1.bigUrlValue = "QU!") := by
  decide

/-- C5, amended: the rejected requests are answered with status 400 and never
touch the store.  A `/compare` POST with a malformed body leaves the whole
state as it was.  A `/download` POST with a malformed body leaves the
accumulator and the phase counter as they were and the completeness flag
false.  A `/compare` POST in phase 0 or 2 whose effective text is not valid
base64 leaves the flag as it was; with the flag false the whole state is
unchanged, with the flag true the phase counter ends at 0 and the accumulator
is unchanged in phase 0 and extended by the request's text in phase 2. -/
theorem rejected_request_effects (net : Net) (sched : Nat → List Action) (st : State)
    (req : VideoRequest) :
    ((DownloadHandler net sched st "POST" none).response.status = 400
        ∧ (DownloadHandler net sched st "POST" none).state = { st with isDownloaded := false })
      ∧ ((CompareHandler st "POST" none).2.status = 400
        ∧ (CompareHandler st "POST" none).1 = st)
      ∧ ((req.IsBigUrlDone = 0 ∨ req.IsBigUrlDone = 2) →
          base64Decode (cleanURL
            (if req.IsBigUrlDone = 2 then st.bigUrlValue ++ req.URL else req.URL)) = none →
          (CompareHandler st "POST" (some req)).2.status = 400
            ∧ (CompareHandler st "POST" (some req)).1.videoBuffers = st.videoBuffers
            ∧ (CompareHandler st "POST" (some req)).1.isDownloaded = st.isDownloaded
            ∧ (st.isDownloaded = false → (CompareHandler st "POST" (some req)).1 = st)
            ∧ (st.isDownloaded = true →
                (CompareHandler st "POST" (some req)).1
                  = { st with
                      isBigUrlDone := 0
                      bigUrlValue :=
                        if req.IsBigUrlDone = 2 then st.bigUrlValue ++ req.URL
                        else st.bigUrlValue })) := by
  refine ⟨?_, ?_, ?_⟩
  · simp [DownloadHandler, Response.status]
  · cases hf : st.isDownloaded <;> simp [CompareHandler, Response.status, hf]
  · intro hphase hdec
    cases hf : st.isDownloaded with
    | false => simp [CompareHandler, Response.status, hf]
    | true =>
      rcases hphase with h0 | h2
      · simp only [h0] at hdec
        have hd : base64Decode (cleanURL req.URL) = none := by simpa using hdec
        simp [CompareHandler, Response.status, hf, h0, hd]
      · simp only [h2] at hdec
        have hd : base64Decode (cleanURL (st.bigUrlValue ++ req.URL)) = none := by
          simpa using hdec
        simp [CompareHandler, Response.status, hf, h2, hd]

/-- Witness for C5 (amended): the phase-2 request `!` after the text `QU`. -/
theorem rejected_request_effects_witness :
    (CompareHandler exHalfway "POST" (some ⟨"!", [], 2⟩)).2.status = 400
      ∧ (CompareHandler exHalfway "POST" (some ⟨"!", [], 2⟩)).1
          = { exHalfway with isBigUrlDone := 0, bigUrlValue := "QU!" } :=
  have h := (rejected_request_effects exNetDown exNoSchedule exHalfway ⟨"!", [], 2⟩).2.2
    (Or.inr rfl) (by decide)
  ⟨h.1, (h.2.2.2.2 rfl).trans (by decide)⟩

/-! ## Store -/

theorem Store.get_put_same (s : Store) (k : String) (v : Bytes) :
    (s.put k v).get k = some v := by
  induction s with
  | nil => simp [Store.put, Store.get]
  | cons e rest ih =>
    obtain ⟨k1, v1⟩ := e
    by_cases h : k1 = k
    · simp [Store.put, Store.get, h]
    · simp [Store.put, Store.get, h, ih]

theorem Store.get_put_other (s : Store) (k x : String) (v : Bytes) (hx : k ≠ x) :
    (s.put k v).get x = s.get x := by
  induction s with
  | nil => simp [Store.put, Store.get, hx]
  | cons e rest ih =>
    obtain ⟨k1, v1⟩ := e
    by_cases h : k1 = k
    · subst h
      simp [Store.put, Store.get, hx]
    · by_cases h2 : k1 = x
      · subst h2
        simp [Store.put, Store.get, h]
      · simp [Store.put, Store.get, h, h2, ih]

theorem Store.keys_put (s : Store) (k : String) (v : Bytes) :
    (s.put k v).keys = if k ∈ s.keys then s.keys else s.keys ++ [k] := by
  induction s with
  | nil => simp [Store.put, Store.keys]
  | cons e rest ih =>
    obtain ⟨k1, v1⟩ := e
    unfold Store.keys at ih
    by_cases h : k1 = k
    · simp [Store.put, Store.keys, h]
    · have h2 : ¬ k = k1 := fun e => h e.symm
      by_cases hm : k ∈ rest.map Prod.fst
      · rw [if_pos hm] at ih
        have hm2 : ∃ a, (k, a) ∈ rest := by simpa using hm
        simp [Store.put, Store.keys, h, h2, ih, hm2]
      · rw [if_neg hm] at ih
        have hm2 : ¬ ∃ a, (k, a) ∈ rest := by simpa using hm
        simp [Store.put, Store.keys, h, h2, ih, hm2]

theorem Store.keys_put_nodup (s : Store) (k : String) (v : Bytes) (h : s.keys.Nodup) :
    (s.put k v).keys.Nodup := by
  rw [Store.keys_put]
  by_cases hm : k ∈ s.keys
  · rw [if_pos hm]; exact h
  · rw [if_neg hm]
    exact List.Nodup.append h (List.nodup_singleton k) (by simpa using hm)

theorem get?_split {α : Type} (l : List α) (k : Nat) (a : α) (h : l.get? k = some a) :
    ∃ l1 l2, l = l1 ++ a :: l2 ∧ l.eraseIdx k = l1 ++ l2 := by
  induction l generalizing k with
  | nil => simp at h
  | cons b rest ih =>
    cases k with
    | zero =>
      simp at h
      subst h
      exact ⟨[], rest, rfl, rfl⟩
    | succ n =>
      simp at h
      obtain ⟨l1, l2, h1, h2⟩ := ih n (by simpa using h)
      refine ⟨b :: l1, l2, by rw [h1]; rfl, ?_⟩
      simp [List.eraseIdx, h2]

/-! ## Invariants of one chunk -/

/-- An invariant `Q` of the configurations of a chunk and a property `S` of
its steps, both kept by a membership check and by a task finishing, hold for
the whole run of the chunk under every schedule. -/
theorem settleAll_inv (net : Net) (Q : List VideoData → List VideoData → State → Prop)
    (S : Step → Prop)
    (hsettle : ∀ items l1 task l2 st, Q items (l1 ++ task :: l2) st →
      Q items (l1 ++ l2) (settleTask net task st).1 ∧ S (settleTask net task st).2)
    (items pending : List VideoData) (st : State) (h : Q items pending st) :
    Q items [] (settleAll net pending st).1 ∧ ∀ s ∈ (settleAll net pending st).2, S s := by
  induction pending generalizing st with
  | nil => exact ⟨h, by simp [settleAll]⟩
  | cons task rest ih =>
    have hs := hsettle items [] task rest st h
    have hr := ih (settleTask net task st).1 hs.1
    refine ⟨hr.1, ?_⟩
    intro s hmem
    simp only [settleAll, List.mem_cons] at hmem
    rcases hmem with rfl | hmem
    · exact hs.2
    · exact hr.2 s hmem

theorem drainChunk_inv (net : Net) (Q : List VideoData → List VideoData → State → Prop)
    (S : Step → Prop)
    (hcheck : ∀ item rest pending st, Q (item :: rest) pending st →
      Q rest (checkItem item pending st).1 st ∧ ∀ s ∈ (checkItem item pending st).2, S s)
    (hsettle : ∀ items l1 task l2 st, Q items (l1 ++ task :: l2) st →
      Q items (l1 ++ l2) (settleTask net task st).1 ∧ S (settleTask net task st).2)
    (items pending : List VideoData) (st : State) (h : Q items pending st) :
    Q [] [] (drainChunk net items pending st).1
      ∧ ∀ s ∈ (drainChunk net items pending st).2, S s := by
  induction items generalizing pending with
  | nil => exact settleAll_inv net Q S hsettle [] pending st h
  | cons item rest ih =>
    have hc := hcheck item rest pending st h
    have hr := ih (checkItem item pending st).1 hc.1
    refine ⟨hr.1, ?_⟩
    intro s hmem
    simp only [drainChunk, List.mem_append] at hmem
    rcases hmem with hmem | hmem
    · exact hc.2 s hmem
    · exact hr.2 s hmem

theorem runChunk_inv (net : Net) (Q : List VideoData → List VideoData → State → Prop)
    (S : Step → Prop)
    (hcheck : ∀ item rest pending st, Q (item :: rest) pending st →
      Q rest (checkItem item pending st).1 st ∧ ∀ s ∈ (checkItem item pending st).2, S s)
    (hsettle : ∀ items l1 task l2 st, Q items (l1 ++ task :: l2) st →
      Q items (l1 ++ l2) (settleTask net task st).1 ∧ S (settleTask net task st).2)
    (acts : List Action) (items pending : List VideoData) (st : State)
    (h : Q items pending st) :
    Q [] [] (runChunk net acts items pending st).1
      ∧ ∀ s ∈ (runChunk net acts items pending st).2, S s := by
  induction acts generalizing items pending st with
  | nil =>
    simp only [runChunk]
    exact drainChunk_inv net Q S hcheck hsettle items pending st h
  | cons act acts ih =>
    cases act with
    | main =>
      cases items with
      | nil =>
        simp only [runChunk]
        exact ih [] pending st h
      | cons item rest =>
        have hc := hcheck item rest pending st h
        have hr := ih rest (checkItem item pending st).1 st hc.1
        refine ⟨hr.1, ?_⟩
        intro s hmem
        simp only [runChunk, List.mem_append] at hmem
        rcases hmem with hmem | hmem
        · exact hc.2 s hmem
        · exact hr.2 s hmem
    | finish k =>
      simp only [runChunk]
      cases hk : pending.get? k with
      | none => exact ih items pending st h
      | some task =>
        obtain ⟨l1, l2, h1, h2⟩ := get?_split pending k task hk
        rw [h1] at h
        have hs := hsettle items l1 task l2 st h
        rw [h2]
        have hr := ih items (l1 ++ l2) (settleTask net task st).1 hs.1
        refine ⟨hr.1, ?_⟩
        intro s hmem
        simp only [List.mem_cons] at hmem
        rcases hmem with rfl | hmem
        · exact hs.2
        · exact hr.2 s hmem

/-! ## Invariants of the download loop -/

/-- A state invariant `R` kept by setting the flag and by every chunk, and a
step property `S` that holds in every chunk started from an `R` state, hold
for the whole loop. -/
theorem downloadLoop_inv (net : Net) (sched : Nat → List Action) (data : List VideoData)
    (R : State → Prop) (S : Step → Prop)
    (hflag : ∀ st, R st → R { st with isDownloaded := true })
    (hchunk : ∀ acts items st, R st →
      R (runChunk net acts items [] st).1 ∧ ∀ s ∈ (runChunk net acts items [] st).2, S s)
    (fuel i : Nat) (st : State) (h : R st) :
    R (downloadLoop net sched data fuel i st).1
      ∧ ∀ c ∈ (downloadLoop net sched data fuel i st).2, ∀ s ∈ c.steps, S s := by
  induction fuel generalizing i st with
  | zero => exact ⟨h, by simp [downloadLoop]⟩
  | succ fuel ih =>
    unfold downloadLoop
    by_cases hi : i < data.length
    · simp only [hi, if_true]
      by_cases hlast : i + chunkSize ≥ data.length
      · simp only [hlast, if_true]
        have hc := hchunk (sched i) ((data.drop i).take (data.length - i))
          { st with isDownloaded := true } (hflag st h)
        have hr := ih (i + chunkSize) _ hc.1
        refine ⟨hr.1, ?_⟩
        intro c hmem
        simp only [List.mem_cons] at hmem
        rcases hmem with rfl | hmem
        · exact hc.2
        · exact hr.2 c hmem
      · simp only [hlast, if_false]
        have hc := hchunk (sched i) ((data.drop i).take (i + chunkSize - i)) st h
        have hr := ih (i + chunkSize) _ hc.1
        refine ⟨hr.1, ?_⟩
        intro c hmem
        simp only [List.mem_cons] at hmem
        rcases hmem with rfl | hmem
        · exact hc.2
        · exact hr.2 c hmem
    · simp only [hi, if_false]
      exact ⟨h, by simp⟩

theorem runChunk_grows (net : Net) (st0 : Store) (acts : List Action)
    (items : List VideoData) (st : State) (h : Grows st0 st) :
    Grows st0 (runChunk net acts items [] st).1
      ∧ ∀ s ∈ (runChunk net acts items [] st).2, FreshLaunch st0 s := by
  have key := runChunk_inv net
    (fun _ pending st => Grows st0 st ∧ ∀ t ∈ pending, st0.get t.ID = none)
    (FreshLaunch st0) ?_ ?_ acts items [] st ⟨h, by simp⟩
  · exact ⟨key.1.1, key.2⟩
  · intro item rest pending st hq
    obtain ⟨hg, hp⟩ := hq
    unfold checkItem
    by_cases hs : (st.videoBuffers.get item.ID).isSome = true
    · simp only [hs, if_true]
      refine ⟨⟨hg, hp⟩, ?_⟩
      intro s hmem item2 hev
      simp only [List.mem_singleton] at hmem
      subst hmem
      simp at hev
    · simp only [hs, if_false]
      have habs : st0.get item.ID = none := by
        cases h0 : st0.get item.ID with
        | none => rfl
        | some b => exact absurd (by rw [hg.1 _ _ h0]; rfl) hs
      refine ⟨⟨hg, ?_⟩, ?_⟩
      · intro t ht
        replace ht : t ∈ pending ∨ t = item := by simpa using ht
        rcases ht with ht | rfl
        · exact hp t ht
        · exact habs
      · intro s hmem item2 hev
        replace hmem : s = (Event.check item false, st) ∨ s = (Event.launch item, st) := by
          simpa using hmem
        rcases hmem with rfl | rfl
        · simp at hev
        · simp only [Event.launch.injEq] at hev
          subst hev
          exact habs
  · intro items l1 task l2 st hq
    obtain ⟨hg, hp⟩ := hq
    have htask : st0.get task.ID = none := hp task (by simp)
    have hp2 : ∀ t ∈ l1 ++ l2, st0.get t.ID = none := by
      intro t ht
      apply hp t
      simp only [List.mem_append, List.mem_cons] at ht ⊢
      tauto
    unfold settleTask
    cases hd : downloadFileToBuffer net task.MediaLink with
    | none =>
      refine ⟨⟨hg, hp2⟩, ?_⟩
      intro item2 hev
      simp at hev
    | some buffer =>
      refine ⟨⟨⟨?_, ?_⟩, hp2⟩, ?_⟩
      · intro x b hx
        have hne : task.ID ≠ x := by
          intro e
          rw [e, hx] at htask
          exact absurd htask (by simp)
        simp only
        rw [Store.get_put_other _ _ _ _ hne]
        exact hg.1 x b hx
      · intro hn
        exact Store.keys_put_nodup _ _ _ (hg.2 hn)
      · intro item2 hev
        simp at hev

theorem downloadLoop_grows (net : Net) (sched : Nat → List Action) (data : List VideoData)
    (st0 : Store) (fuel i : Nat) (st : State) (h : Grows st0 st) :
    Grows st0 (downloadLoop net sched data fuel i st).1
      ∧ ∀ c ∈ (downloadLoop net sched data fuel i st).2, ∀ s ∈ c.steps, FreshLaunch st0 s :=
  downloadLoop_inv net sched data (Grows st0) (FreshLaunch st0) (fun _ h => h)
    (fun acts items st h => runChunk_grows net st0 acts items st h) fuel i st h

theorem download_grows (net : Net) (sched : Nat → List Action) (st : State)
    (method : String) (body : Option VideoRequest) :
    Grows st.videoBuffers (DownloadHandler net sched st method body).state
      ∧ ∀ c ∈ (DownloadHandler net sched st method body).chunks, ∀ s ∈ c.steps,
          FreshLaunch st.videoBuffers s := by
  have h0 : Grows st.videoBuffers st := ⟨fun _ _ h => h, fun h => h⟩
  have h1 : Grows st.videoBuffers { st with isDownloaded := false } := h0
  unfold DownloadHandler
  by_cases hm : method = "OPTIONS"
  · simp only [hm, if_true]
    exact ⟨h0, by simp⟩
  · simp only [hm, if_false]
    by_cases hp : method = "POST"
    · simp only [hp, ne_eq, not_true_eq_false, if_false]
      cases body with
      | none => exact ⟨h1, by simp⟩
      | some req => exact downloadLoop_grows net sched req.Data st.videoBuffers _ 0 _ h1
    · simp only [ne_eq, hp, not_false_eq_true, if_true]
      exact ⟨h0, by simp⟩

theorem compare_store (st : State) (method : String) (body : Option VideoRequest) :
    (CompareHandler st method body).1.videoBuffers = st.videoBuffers := by
  unfold CompareHandler
  by_cases hm : method = "OPTIONS"
  · simp [hm]
  · by_cases hp : method = "POST"
    · cases hf : st.isDownloaded with
      | false => simp [hp, hf]
      | true =>
        cases body with
        | none => simp [hp, hf]
        | some req =>
          simp only [hp, hf]
          by_cases h1 : req.IsBigUrlDone = 1
          · simp [h1]
          · by_cases h2 : req.IsBigUrlDone = 2
            · simp [h2]
              split <;> rfl
            · simp [h1, h2]
              split <;> rfl
    · simp [hm, hp]

/-! ## The completeness flag -/

theorem runChunk_flag (net : Net) (acts : List Action) (items pending : List VideoData)
    (st : State) :
    (runChunk net acts items pending st).1.isDownloaded = st.isDownloaded
      ∧ ∀ s ∈ (runChunk net acts items pending st).2, s.2.isDownloaded = st.isDownloaded := by
  refine runChunk_inv net (fun _ _ s => s.isDownloaded = st.isDownloaded)
    (fun s => s.2.isDownloaded = st.isDownloaded) ?_ ?_ acts items pending st rfl
  · intro item rest pending2 st2 hq
    refine ⟨hq, ?_⟩
    intro s hmem
    unfold checkItem at hmem
    split at hmem
    · replace hmem : s = (Event.check item true, st2) := by simpa using hmem
      rw [hmem]; exact hq
    · replace hmem : s = (Event.check item false, st2) ∨ s = (Event.launch item, st2) := by
        simpa using hmem
      rcases hmem with rfl | rfl <;> exact hq
  · intro items2 l1 task l2 st2 hq
    unfold settleTask
    cases downloadFileToBuffer net task.MediaLink with
    | none => exact ⟨hq, hq⟩
    | some buffer => exact ⟨hq, hq⟩

theorem downloadLoop_done (net : Net) (sched : Nat → List Action) (data : List VideoData)
    (fuel i : Nat) (st : State) (hi : data.length ≤ i) :
    downloadLoop net sched data fuel i st = (st, []) := by
  cases fuel with
  | zero => rfl
  | succ fuel =>
    unfold downloadLoop
    simp only [Nat.not_lt.mpr hi, if_false]

theorem downloadLoop_flag (net : Net) (sched : Nat → List Action) (data : List VideoData)
    (fuel i : Nat) (st : State) (hi : i < data.length) (hfuel : data.length - i ≤ fuel) :
    (downloadLoop net sched data fuel i st).1.isDownloaded = true := by
  induction fuel generalizing i st with
  | zero => omega
  | succ fuel ih =>
    unfold downloadLoop
    simp only [hi, if_true]
    by_cases hlast : i + chunkSize ≥ data.length
    · simp only [hlast, if_true]
      rw [downloadLoop_done net sched data fuel _ _ hlast]
      exact (runChunk_flag net _ _ _ _).1
    · simp only [hlast, if_false]
      apply ih
      · omega
      · unfold chunkSize at hlast ⊢
        omega

/-- C3, counterexample: a well-formed `/download` POST with an empty item list
is answered with 200 and leaves the completeness flag false, even when the
flag was set before. -/
theorem empty_batch_leaves_flag_false :
    (DownloadHandler exNet exNoSchedule exReady "POST" (some ⟨"", [], 0⟩)).response
        = .header 200
      ∧ (DownloadHandler exNet exNoSchedule exReady "POST"
          (some ⟨"", [], 0⟩)).state.isDownloaded = false := by
  decide

/-- C3, amended: for every non-empty sequence of items in a well-formed
`/download` POST, every initial state, every network and every schedule, the
handler answers 200 and the completeness flag is true when it returns. -/
theorem download_sets_flag (net : Net) (sched : Nat → List Action) (st : State)
    (req : VideoRequest) (hne : req.Data ≠ []) :
    (DownloadHandler net sched st "POST" (some req)).response = .header 200
      ∧ (DownloadHandler net sched st "POST" (some req)).state.isDownloaded = true := by
  have hlen : 0 < req.Data.length := List.length_pos.mpr hne
  refine ⟨by simp [DownloadHandler], ?_⟩
  simp only [DownloadHandler]
  simp only [ne_eq, not_true_eq_false, if_false, reduceCtorEq]
  exact downloadLoop_flag net sched req.Data _ 0 _ hlen (by omega)

/-- Witness for C3 (amended): the batch of ten items, two of which fail. -/
theorem download_sets_flag_witness :
    exBatch10 ≠ []
      ∧ (DownloadHandler exNet exSchedule State.init "POST"
          (some ⟨"", exBatch10, 0⟩)).state.isDownloaded = true :=
  ⟨by decide,
    (download_sets_flag exNet exSchedule State.init ⟨"", exBatch10, 0⟩ (by decide)).2⟩

/-- C4, the code at a batch of ten items: the second chunk (items 8 and 9) is
entered with the completeness flag already true, and the flag is true at each
of its steps: both membership checks, both launches and both completions. -/
theorem flag_true_during_last_chunk :
    (DownloadHandler exNet exNoSchedule State.init "POST"
        (some ⟨"", exBatch10, 0⟩)).chunks.map
      (fun c => (c.start, c.stop, c.entry.isDownloaded,
        c.steps.map (fun s => (s.1, s.2.isDownloaded))))
      = [(0, 8, false,
          [(.check ⟨"l1", "v0"⟩ false, false), (.launch ⟨"l1", "v0"⟩, false),
           (.check ⟨"l2", "v1"⟩ false, false), (.launch ⟨"l2", "v1"⟩, false),
           (.check ⟨"gone", "v2"⟩ false, false), (.launch ⟨"gone", "v2"⟩, false),
           (.check ⟨"l1", "v3"⟩ false, false), (.launch ⟨"l1", "v3"⟩, false),
           (.check ⟨"cut", "v4"⟩ false, false), (.launch ⟨"cut", "v4"⟩, false),
           (.check ⟨"l2", "v5"⟩ false, false), (.launch ⟨"l2", "v5"⟩, false),
           (.check ⟨"l1", "v6"⟩ false, false), (.launch ⟨"l1", "v6"⟩, false),
           (.check ⟨"down", "v7"⟩ false, false), (.launch ⟨"down", "v7"⟩, false),
           (.settle ⟨"l1", "v0"⟩ true, false), (.settle ⟨"l2", "v1"⟩ true, false),
           (.settle ⟨"gone", "v2"⟩ false, false), (.settle ⟨"l1", "v3"⟩ true, false),
           (.settle ⟨"cut", "v4"⟩ false, false), (.settle ⟨"l2", "v5"⟩ true, false),
           (.settle ⟨"l1", "v6"⟩ true, false), (.settle ⟨"down", "v7"⟩ false, false)]),
         (8, 10, true,
          [(.check ⟨"l1", "v8"⟩ false, true), (.launch ⟨"l1", "v8"⟩, true),
           (.check ⟨"l2", "v9"⟩ false, true), (.launch ⟨"l2", "v9"⟩, true),
           (.settle ⟨"l1", "v8"⟩ true, true), (.settle ⟨"l2", "v9"⟩ true, true)])] := by
  decide

/-- The iteration bound of `downloadLoop` is never the reason the loop stops:
any two bounds of at least the number of items left give the same result. -/
theorem downloadLoop_fuel (net : Net) (sched : Nat → List Action) (data : List VideoData)
    (fuel1 fuel2 i : Nat) (st : State) (h1 : data.length - i ≤ fuel1)
    (h2 : data.length - i ≤ fuel2) :
    downloadLoop net sched data fuel1 i st = downloadLoop net sched data fuel2 i st := by
  induction fuel1 generalizing fuel2 i st with
  | zero =>
    rw [downloadLoop_done net sched data 0 i st (by omega),
      downloadLoop_done net sched data fuel2 i st (by omega)]
  | succ fuel1 ih =>
    cases fuel2 with
    | zero =>
      rw [downloadLoop_done net sched data _ i st (by omega),
        downloadLoop_done net sched data 0 i st (by omega)]
    | succ fuel2 =>
      by_cases hi : i < data.length
      · unfold downloadLoop
        simp only [hi, if_true]
        rw [ih fuel2 (i + chunkSize) _ (by unfold chunkSize; omega)
          (by unfold chunkSize; omega)]
      · rw [downloadLoop_done net sched data _ i st (by omega),
          downloadLoop_done net sched data _ i st (by omega)]

/-! ## Chunking -/

theorem checkItem_launchCount (item : VideoData) (pending : List VideoData) (st : State) :
    launchCount (checkItem item pending st).2 ≤ 1 := by
  unfold checkItem launchCount
  split <;> simp [Event.isLaunch]

theorem settleTask_not_launch (net : Net) (task : VideoData) (st : State) :
    (settleTask net task st).2.1.isLaunch = false := by
  unfold settleTask
  cases downloadFileToBuffer net task.MediaLink <;> rfl

theorem settleAll_launchCount (net : Net) (pending : List VideoData) (st : State) :
    launchCount (settleAll net pending st).2 = 0 := by
  induction pending generalizing st with
  | nil => simp [settleAll, launchCount]
  | cons task rest ih =>
    have h := ih (settleTask net task st).1
    unfold launchCount at h ⊢
    simp only [settleAll, List.countP_cons, settleTask_not_launch, h]
    simp

theorem drainChunk_launchCount (net : Net) (items pending : List VideoData) (st : State) :
    launchCount (drainChunk net items pending st).2 ≤ items.length := by
  induction items generalizing pending with
  | nil =>
    simp only [drainChunk, settleAll_launchCount, List.length_nil, le_refl]
  | cons item rest ih =>
    have h1 := checkItem_launchCount item pending st
    have h2 := ih (checkItem item pending st).1
    unfold launchCount at h1 h2 ⊢
    simp only [drainChunk, List.countP_append, List.length_cons]
    omega

theorem runChunk_launchCount (net : Net) (acts : List Action) (items pending : List VideoData)
    (st : State) :
    launchCount (runChunk net acts items pending st).2 ≤ items.length := by
  induction acts generalizing items pending st with
  | nil => exact drainChunk_launchCount net items pending st
  | cons act acts ih =>
    cases act with
    | main =>
      cases items with
      | nil => exact ih [] pending st
      | cons item rest =>
        have h1 := checkItem_launchCount item pending st
        have h2 := ih rest (checkItem item pending st).1 st
        unfold launchCount at h1 h2 ⊢
        simp only [runChunk, List.countP_append, List.length_cons]
        omega
    | finish k =>
      simp only [runChunk]
      cases hk : pending.get? k with
      | none => exact ih items pending st
      | some task =>
        have h2 := ih items (pending.eraseIdx k) (settleTask net task st).1
        unfold launchCount at h2 ⊢
        simp only [List.countP_cons, settleTask_not_launch]
        simpa using h2

theorem downloadLoop_chunks (net : Net) (sched : Nat → List Action) (data : List VideoData)
    (fuel j : Nat) (st : State) (hfuel : data.length - 8 * j ≤ fuel) :
    (downloadLoop net sched data fuel (8 * j) st).2.map (fun c => (c.start, c.stop, c.items))
      = (List.range' j ((data.length + 7) / 8 - j)).map
          (fun k => (8 * k, min (8 * k + 8) data.length, chunkSlice data k)) := by
  induction fuel generalizing j st with
  | zero =>
    have h0 : (data.length + 7) / 8 - j = 0 := by omega
    simp [downloadLoop, h0]
  | succ fuel ih =>
    by_cases hi : 8 * j < data.length
    · have hM : (data.length + 7) / 8 - j = ((data.length + 7) / 8 - (j + 1)) + 1 := by omega
      have hnext : 8 * j + chunkSize = 8 * (j + 1) := by unfold chunkSize; omega
      have hstop : (if 8 * (j + 1) ≥ data.length then data.length else 8 * (j + 1))
          = min (8 * j + 8) data.length := by
        split <;> omega
      rw [hM, List.range'_succ]
      unfold downloadLoop
      simp only [hi, if_true, List.map_cons]
      rw [hnext, ih (j + 1) _ (by omega), hstop]
      rfl
    · have h0 : (data.length + 7) / 8 - j = 0 := by omega
      rw [downloadLoop_done net sched data _ _ _ (by omega), h0]
      simp

theorem downloadLoop_flatten (net : Net) (sched : Nat → List Action) (data : List VideoData)
    (fuel i : Nat) (st : State) (hfuel : data.length - i ≤ fuel) :
    ((downloadLoop net sched data fuel i st).2.map (fun c => c.items)).flatten
      = data.drop i := by
  induction fuel generalizing i st with
  | zero =>
    have h0 : data.length ≤ i := by omega
    simp [downloadLoop, List.drop_eq_nil_of_le h0]
  | succ fuel ih =>
    by_cases hi : i < data.length
    · unfold downloadLoop
      simp only [hi, if_true, List.map_cons, List.flatten_cons]
      rw [ih (i + chunkSize) _ (by unfold chunkSize; omega)]
      by_cases hlast : i + chunkSize ≥ data.length
      · simp only [hlast, if_true]
        rw [List.drop_eq_nil_of_le hlast, List.append_nil]
        apply List.take_of_length_le
        simp
      · simp only [hlast, if_false]
        have h8 : i + chunkSize - i = chunkSize := by omega
        rw [h8, ← List.drop_drop, List.take_append_drop]
    · rw [downloadLoop_done net sched data _ _ _ (by omega)]
      have h0 : data.length ≤ i := by omega
      simp [List.drop_eq_nil_of_le h0]

theorem downloadLoop_launches (net : Net) (sched : Nat → List Action) (data : List VideoData)
    (fuel i : Nat) (st : State) :
    ∀ c ∈ (downloadLoop net sched data fuel i st).2, launchCount c.steps ≤ c.items.length := by
  induction fuel generalizing i st with
  | zero => simp [downloadLoop]
  | succ fuel ih =>
    unfold downloadLoop
    by_cases hi : i < data.length
    · simp only [hi, if_true]
      intro c hmem
      simp only [List.mem_cons] at hmem
      rcases hmem with rfl | hmem
      · exact runChunk_launchCount net _ _ _ _
      · exact ih _ _ c hmem
    · simp [hi]

/-- C7: for a list of `N` items the loop runs `(N + 7) / 8` iterations, one
wait barrier each; the `k`-th chunk is the slice `items[8k .. min(8k+8, N))`,
it is not empty, has at most 8 items and starts at most 8 fetch tasks, every
chunk but the last has exactly 8 items, and the chunks concatenated in order
are the list of items. -/
theorem chunking (net : Net) (sched : Nat → List Action) (st : State) (req : VideoRequest) :
    (DownloadHandler net sched st "POST" (some req)).chunks.length
        = (req.Data.length + 7) / 8
      ∧ (∀ k c, (DownloadHandler net sched st "POST" (some req)).chunks[k]? = some c →
          c.start = 8 * k ∧ c.stop = min (8 * k + 8) req.Data.length
            ∧ c.items = chunkSlice req.Data k
            ∧ c.items ≠ [] ∧ c.items.length ≤ 8 ∧ launchCount c.steps ≤ 8
            ∧ (k + 1 < (DownloadHandler net sched st "POST" (some req)).chunks.length →
                c.items.length = 8))
      ∧ ((DownloadHandler net sched st "POST" (some req)).chunks.map
          (fun c => c.items)).flatten = req.Data := by
  have hch : (DownloadHandler net sched st "POST" (some req)).chunks
      = (downloadLoop net sched req.Data req.Data.length 0
          { st with isDownloaded := false }).2 := by
    simp [DownloadHandler]
  have hmap := downloadLoop_chunks net sched req.Data req.Data.length 0
    { st with isDownloaded := false } (by omega)
  have hlen : (downloadLoop net sched req.Data req.Data.length 0
      { st with isDownloaded := false }).2.length = (req.Data.length + 7) / 8 := by
    have := congrArg List.length hmap
    simpa using this
  rw [hch]
  refine ⟨hlen, ?_, ?_⟩
  · intro k c hk
    have hk2 := congrArg (fun l => l[k]?) hmap
    simp only [List.getElem?_map, hk, Option.map_some', Nat.mul_zero, Nat.sub_zero] at hk2
    have hkM : k < (req.Data.length + 7) / 8 := by
      by_contra hcon
      rw [List.getElem?_eq_none (by simpa using Nat.le_of_not_lt hcon)] at hk2
      simp at hk2
    rw [List.getElem?_range' _ _ hkM] at hk2
    simp only [Option.map_some', Option.some.injEq, Prod.mk.injEq, Nat.one_mul, Nat.zero_add]
      at hk2
    obtain ⟨h1, h2, h3⟩ := hk2
    have hl : c.items.length = min (min (8 * k + 8) req.Data.length - 8 * k)
        (req.Data.length - 8 * k) := by
      rw [h3]
      simp [chunkSlice]
    have hlaunch := downloadLoop_launches net sched req.Data req.Data.length 0
      { st with isDownloaded := false } c (List.getElem?_mem hk)
    refine ⟨h1, h2, h3, ?_, ?_, ?_, ?_⟩
    · intro hnil
      rw [hnil] at hl
      simp only [List.length_nil] at hl
      omega
    · omega
    · omega
    · intro hnext
      rw [hlen] at hnext
      omega
  · have := downloadLoop_flatten net sched req.Data req.Data.length 0
      { st with isDownloaded := false } (by omega)
    simpa using this

/-- Witness for C7: ten items make two chunks, of 8 and of 2 items. -/
theorem chunking_witness :
    (DownloadHandler exNet exSchedule State.init "POST"
        (some ⟨"", exBatch10, 0⟩)).chunks.length = 2
      ∧ (DownloadHandler exNet exSchedule State.init "POST"
          (some ⟨"", exBatch10, 0⟩)).chunks.map (fun c => c.items.length) = [8, 2] :=
  ⟨(chunking exNet exSchedule State.init ⟨"", exBatch10, 0⟩).1.trans (by decide), by decide⟩

/-- C9: every handler keeps the entries of the store.  After a `/download`
request each id held before is held with the same buffer, no fetch task is
started for an id held before, and a store with one entry per id stays so;
`/compare` and `/trigger` leave the store as it is; running the batch a second
time, on any network and schedule, keeps every entry of the first run and
still one entry per id. -/
theorem store_monotone (net net2 : Net) (sched sched2 : Nat → List Action) (st : State)
    (method : String) (body : Option VideoRequest) :
    (∀ x b, st.videoBuffers.get x = some b →
        (DownloadHandler net sched st method body).state.videoBuffers.get x = some b)
      ∧ (∀ c ∈ (DownloadHandler net sched st method body).chunks, ∀ s ∈ c.steps,
          ∀ item, s.1 = .launch item → st.videoBuffers.get item.ID = none)
      ∧ (st.videoBuffers.keys.Nodup →
          (DownloadHandler net sched st method body).state.videoBuffers.keys.Nodup)
      ∧ (CompareHandler st method body).1.videoBuffers = st.videoBuffers
      ∧ (TriggerHandler st method).1.videoBuffers = st.videoBuffers
      ∧ (∀ x b, (DownloadHandler net sched st method body).state.videoBuffers.get x = some b →
          (DownloadHandler net2 sched2 (DownloadHandler net sched st method body).state
            method body).state.videoBuffers.get x = some b)
      ∧ (st.videoBuffers.keys.Nodup →
          (DownloadHandler net2 sched2 (DownloadHandler net sched st method body).state
            method body).state.videoBuffers.keys.Nodup) := by
  have h1 := download_grows net sched st method body
  have h2 := download_grows net2 sched2 (DownloadHandler net sched st method body).state
    method body
  refine ⟨h1.1.1, h1.2, h1.1.2, compare_store st method body, ?_, h2.1.1, ?_⟩
  · unfold TriggerHandler
    split <;> rfl
  · intro hn
    exact h2.1.2 (h1.1.2 hn)

/-- Witness for C9: a batch that lists the stored id `a` next to a new id
leaves the buffer of `a` as it was and adds one entry. -/
theorem store_monotone_witness :
    exReady.videoBuffers.get "a" = some [65, 66, 67]
      ∧ (DownloadHandler exNet exSchedule exReady "POST"
          (some ⟨"", [⟨"l1", "a"⟩, ⟨"l2", "c"⟩], 0⟩)).state.videoBuffers.get "a"
          = some [65, 66, 67]
      ∧ (DownloadHandler exNet exSchedule exReady "POST"
          (some ⟨"", [⟨"l1", "a"⟩, ⟨"l2", "c"⟩], 0⟩)).state.videoBuffers.keys
          = ["a", "b", "c"] :=
  ⟨by decide,
    (store_monotone exNet exNet exSchedule exSchedule exReady "POST"
      (some ⟨"", [⟨"l1", "a"⟩, ⟨"l2", "c"⟩], 0⟩)).1 "a" [65, 66, 67] (by decide),
    by decide⟩

/-! ## What a batch leaves in the store -/

theorem reach_congr (net : Net) (s : Store) (l1 l2 : List VideoData) (x : String) (b : Bytes)
    (h : ∀ it, it ∈ l1 ↔ it ∈ l2) : Reach net s l1 x b ↔ Reach net s l2 x b := by
  unfold Reach
  constructor
  · rintro (h1 | ⟨h0, it, hm, hid, hf⟩)
    · exact Or.inl h1
    · exact Or.inr ⟨h0, it, (h it).mp hm, hid, hf⟩
  · rintro (h1 | ⟨h0, it, hm, hid, hf⟩)
    · exact Or.inl h1
    · exact Or.inr ⟨h0, it, (h it).mpr hm, hid, hf⟩

theorem reach_cons (net : Net) (s : Store) (t : VideoData) (l : List VideoData) (x : String)
    (b : Bytes) :
    Reach net s (t :: l) x b
      ↔ Reach net s l x b
        ∨ (s.get x = none ∧ t.ID = x ∧ downloadFileToBuffer net t.MediaLink = some b) := by
  unfold Reach
  constructor
  · rintro (h1 | ⟨h0, it, hm, hid, hf⟩)
    · exact Or.inl (Or.inl h1)
    · rcases List.mem_cons.mp hm with rfl | hm
      · exact Or.inr ⟨h0, hid, hf⟩
      · exact Or.inl (Or.inr ⟨h0, it, hm, hid, hf⟩)
  · rintro ((h1 | ⟨h0, it, hm, hid, hf⟩) | ⟨h0, hid, hf⟩)
    · exact Or.inl h1
    · exact Or.inr ⟨h0, it, List.mem_cons_of_mem _ hm, hid, hf⟩
    · exact Or.inr ⟨h0, t, List.mem_cons_self _ _, hid, hf⟩

theorem reach_nil (net : Net) (s : Store) (x : String) (b : Bytes) :
    Reach net s [] x b ↔ s.get x = some b := by
  simp [Reach]

theorem reach_settle (net : Net) (task : VideoData) (st : State) (l : List VideoData)
    (x : String) (b : Bytes) (hl : ∀ it ∈ l, it.ID ≠ task.ID)
    (habs : st.videoBuffers.get task.ID = none) :
    Reach net (settleTask net task st).1.videoBuffers l x b
      ↔ Reach net st.videoBuffers (task :: l) x b := by
  rw [reach_cons]
  unfold settleTask
  cases hd : downloadFileToBuffer net task.MediaLink with
  | none => simp
  | some buffer =>
    simp only
    by_cases hx : task.ID = x
    · subst hx
      have hno : ¬ ∃ it ∈ l, it.ID = task.ID
          ∧ downloadFileToBuffer net it.MediaLink = some b := by
        rintro ⟨it, hm, hid, _⟩
        exact hl it hm hid
      unfold Reach
      rw [Store.get_put_same, habs]
      simp [hno]
    · unfold Reach
      rw [Store.get_put_other _ _ _ _ hx]
      simp [hx]

theorem runChunk_fetched (net : Net) (acts : List Action) (items : List VideoData)
    (st : State) (hn : (items.map (fun it => it.ID)).Nodup) :
    Fetched net st.videoBuffers items (runChunk net acts items [] st).1.videoBuffers := by
  have key := (runChunk_inv net
    (fun its pending s =>
      ((its ++ pending).map (fun it => it.ID)).Nodup
        ∧ (∀ t ∈ pending, s.videoBuffers.get t.ID = none)
        ∧ ∀ x b, Reach net s.videoBuffers (its ++ pending) x b
            ↔ Reach net st.videoBuffers items x b)
    (fun _ => True) ?_ ?_ acts items [] st
    ⟨by simpa using hn, by simp, by simp⟩).1
  · intro x b
    have h := key.2.2 x b
    rw [List.append_nil, reach_nil] at h
    exact h
  · intro item rest pending s hq
    obtain ⟨hnd, habs, hreach⟩ := hq
    refine ⟨?_, fun _ _ => trivial⟩
    unfold checkItem
    by_cases hs : (s.videoBuffers.get item.ID).isSome = true
    · simp only [hs, if_true]
      refine ⟨?_, habs, ?_⟩
      · simp only [List.cons_append, List.map_cons] at hnd
        exact hnd.of_cons
      · intro x b
        rw [← hreach x b, List.cons_append, reach_cons]
        constructor
        · exact Or.inl
        · rintro (h | ⟨h0, hid, _⟩)
          · exact h
          · rw [hid, h0] at hs
            simp at hs
    · simp only [hs, if_false]
      have hperm : (rest ++ (pending ++ [item])).Perm (item :: rest ++ pending) := by
        rw [← List.append_assoc]
        exact List.perm_append_singleton item (rest ++ pending)
      refine ⟨(hperm.map _).nodup_iff.mpr hnd, ?_, ?_⟩
      · intro t ht
        replace ht : t ∈ pending ∨ t = item := by simpa using ht
        rcases ht with ht | rfl
        · exact habs t ht
        · cases h0 : s.videoBuffers.get t.ID with
          | none => rfl
          | some v => rw [h0] at hs; simp at hs
      · intro x b
        rw [← hreach x b]
        exact reach_congr net _ _ _ x b (fun it => hperm.mem_iff)
  · intro its l1 task l2 s hq
    obtain ⟨hnd, habs, hreach⟩ := hq
    refine ⟨?_, trivial⟩
    have hperm : (its ++ (l1 ++ task :: l2)).Perm (task :: (its ++ (l1 ++ l2))) := by
      rw [← List.append_assoc, ← List.append_assoc]
      exact List.perm_middle
    have hnd2 := (hperm.map (fun it => it.ID)).nodup_iff.mp hnd
    rw [List.map_cons, List.nodup_cons] at hnd2
    have hfresh : ∀ it ∈ its ++ (l1 ++ l2), it.ID ≠ task.ID := by
      intro it hm hid
      apply hnd2.1
      rw [← hid]
      exact List.mem_map_of_mem _ hm
    have htask : s.videoBuffers.get task.ID = none := habs task (by simp)
    refine ⟨hnd2.2, ?_, ?_⟩
    · intro t ht
      have hne : task.ID ≠ t.ID := fun e => hfresh t (by simp only [List.mem_append] at ht ⊢; tauto) e.symm
      have hold : s.videoBuffers.get t.ID = none := by
        apply habs t
        simp only [List.mem_append, List.mem_cons] at ht ⊢
        tauto
      unfold settleTask
      cases downloadFileToBuffer net task.MediaLink with
      | none => exact hold
      | some buffer =>
        simp only
        rw [Store.get_put_other _ _ _ _ hne]
        exact hold
    · intro x b
      rw [reach_settle net task s _ x b hfresh htask, ← hreach x b]
      exact reach_congr net _ _ _ x b (fun it => hperm.mem_iff.symm)

theorem fetched_append (net : Net) (s0 s1 s2 : Store) (l1 l2 : List VideoData)
    (h1 : Fetched net s0 l1 s1) (h2 : Fetched net s1 l2 s2)
    (hdis : ∀ a ∈ l1, ∀ c ∈ l2, a.ID ≠ c.ID) : Fetched net s0 (l1 ++ l2) s2 := by
  intro x b
  rw [h2 x b]
  unfold Reach
  constructor
  · rintro (hs1 | ⟨hs1, it, hm, hid, hf⟩)
    · rcases (h1 x b).mp hs1 with h | ⟨h0, it, hm, hid, hf⟩
      · exact Or.inl h
      · exact Or.inr ⟨h0, it, List.mem_append_left _ hm, hid, hf⟩
    · refine Or.inr ⟨?_, it, List.mem_append_right _ hm, hid, hf⟩
      cases h0 : s0.get x with
      | none => rfl
      | some v =>
        rw [(h1 x v).mpr (Or.inl h0)] at hs1
        simp at hs1
  · rintro (h | ⟨h0, it, hm, hid, hf⟩)
    · exact Or.inl ((h1 x b).mpr (Or.inl h))
    · rcases List.mem_append.mp hm with hm | hm
      · exact Or.inl ((h1 x b).mpr (Or.inr ⟨h0, it, hm, hid, hf⟩))
      · refine Or.inr ⟨?_, it, hm, hid, hf⟩
        cases hs1 : s1.get x with
        | none => rfl
        | some v =>
          rcases (h1 x v).mp hs1 with h | ⟨_, a, ha, haid, _⟩
          · rw [h0] at h; simp at h
          · exact absurd (haid.trans hid.symm) (hdis a ha it hm)

theorem downloadLoop_fetched (net : Net) (sched : Nat → List Action) (data : List VideoData)
    (s0 : Store) (hn : (data.map (fun it => it.ID)).Nodup) (fuel i : Nat) (st : State)
    (hfuel : data.length - i ≤ fuel) (h : Fetched net s0 (data.take i) st.videoBuffers) :
    Fetched net s0 data (downloadLoop net sched data fuel i st).1.videoBuffers := by
  induction fuel generalizing i st with
  | zero =>
    rw [List.take_of_length_le (by omega)] at h
    exact h
  | succ fuel ih =>
    by_cases hi : i < data.length
    · have hsplit : (data.take i ++ data.drop i).map (fun it => it.ID)
          = data.map (fun it => it.ID) := by
        rw [List.take_append_drop]
      rw [← hsplit, List.map_append, List.nodup_append] at hn
      obtain ⟨_, hnd, hdisj⟩ := hn
      have hstep : ∀ (n : Nat) (s : State), s.videoBuffers = st.videoBuffers →
          Fetched net s0 (data.take i ++ (data.drop i).take n)
            (runChunk net (sched i) ((data.drop i).take n) [] s).1.videoBuffers := by
        intro n s hs
        apply fetched_append net s0 st.videoBuffers _ _ _ h
        · rw [← hs]
          apply runChunk_fetched
          exact hnd.sublist ((List.take_sublist n (data.drop i)).map _)
        · intro a ha c hc hid
          exact hdisj (List.mem_map_of_mem _ ha)
            (hid ▸ List.mem_map_of_mem (fun it => it.ID) (List.mem_of_mem_take hc))
      unfold downloadLoop
      simp only [hi, if_true]
      apply ih (i + chunkSize) _ (by unfold chunkSize; omega)
      by_cases hlast : i + chunkSize ≥ data.length
      · simp only [hlast, if_true]
        have hfull : data.take (i + chunkSize)
            = data.take i ++ (data.drop i).take (data.length - i) := by
          have hrest : (data.drop i).take (data.length - i) = data.drop i :=
            List.take_of_length_le (by simp)
          rw [List.take_of_length_le hlast, hrest, List.take_append_drop]
        rw [hfull]
        exact hstep _ _ rfl
      · simp only [hlast, if_false]
        have hfull : data.take (i + chunkSize)
            = data.take i ++ (data.drop i).take (i + chunkSize - i) := by
          rw [Nat.add_sub_cancel_left, List.take_add]
        rw [hfull]
        exact hstep _ _ rfl
    · rw [downloadLoop_done net sched data _ _ _ (by omega)]
      rw [List.take_of_length_le (by omega)] at h
      exact h

theorem download_fetched (net : Net) (sched : Nat → List Action) (st : State)
    (req : VideoRequest) (hn : (req.Data.map (fun it => it.ID)).Nodup) :
    Fetched net st.videoBuffers req.Data
      (DownloadHandler net sched st "POST" (some req)).state.videoBuffers := by
  have h := downloadLoop_fetched net sched req.Data st.videoBuffers hn req.Data.length 0
    { st with isDownloaded := false } (by omega) (by intro x b; simp [Reach])
  simpa [DownloadHandler] using h

/-- C10: for a batch with pairwise distinct ids, on every network and under
every schedule, an item whose id was absent before the request ends up with
exactly what its fetch yields: present with the fetched body when the fetch
succeeds, absent when it fails, whatever happens to the other items; an id
neither in the batch nor in the store before stays absent. -/
theorem batch_store_contents (net : Net) (sched : Nat → List Action) (st : State)
    (req : VideoRequest) (hn : (req.Data.map (fun it => it.ID)).Nodup) :
    (∀ item ∈ req.Data, st.videoBuffers.get item.ID = none →
        (DownloadHandler net sched st "POST" (some req)).state.videoBuffers.get item.ID
            = downloadFileToBuffer net item.MediaLink
          ∧ (((DownloadHandler net sched st "POST" (some req)).state.videoBuffers.get
                item.ID).isSome = true
              ↔ ∃ body, downloadFileToBuffer net item.MediaLink = some body))
      ∧ (∀ x, st.videoBuffers.get x = none → (∀ item ∈ req.Data, item.ID ≠ x) →
          (DownloadHandler net sched st "POST" (some req)).state.videoBuffers.get x = none) := by
  have hf := download_fetched net sched st req hn
  have hitem : ∀ item ∈ req.Data, st.videoBuffers.get item.ID = none →
      (DownloadHandler net sched st "POST" (some req)).state.videoBuffers.get item.ID
        = downloadFileToBuffer net item.MediaLink := by
    intro item hm habs
    apply Option.ext
    intro b
    simp only [Option.mem_def]
    rw [hf item.ID b]
    unfold Reach
    constructor
    · rintro (h | ⟨_, it, hit, hid, hb⟩)
      · rw [habs] at h; simp at h
      · have heq : it = item := List.inj_on_of_nodup_map hn hit hm hid
        rw [← heq]
        exact hb
    · intro hb
      exact Or.inr ⟨habs, item, hm, rfl, hb⟩
  refine ⟨?_, ?_⟩
  · intro item hm habs
    refine ⟨hitem item hm habs, ?_⟩
    rw [hitem item hm habs, Option.isSome_iff_exists]
  · intro x habs hout
    cases hx : (DownloadHandler net sched st "POST" (some req)).state.videoBuffers.get x with
    | none => rfl
    | some b =>
      rcases (hf x b).mp hx with h | ⟨_, it, hit, hid, _⟩
      · rw [habs] at h; simp at h
      · exact absurd hid (hout it hit)

/-- Witness for C10: in the batch of ten, the item `v2` gets a 404 and stays
absent, while `v0` of the same chunk and `v9` of the next one are stored. -/
theorem batch_store_contents_witness :
    (exBatch10.map (fun it => it.ID)).Nodup
      ∧ (DownloadHandler exNet exSchedule State.init "POST"
          (some ⟨"", exBatch10, 0⟩)).state.videoBuffers.get "v2" = none
      ∧ (DownloadHandler exNet exSchedule State.init "POST"
          (some ⟨"", exBatch10, 0⟩)).state.videoBuffers.get "v0" = some [1]
      ∧ (DownloadHandler exNet exSchedule State.init "POST"
          (some ⟨"", exBatch10, 0⟩)).state.videoBuffers.get "v9" = some [2, 2] :=
  ⟨by decide,
    ((batch_store_contents exNet exSchedule State.init ⟨"", exBatch10, 0⟩ (by decide)).1
      ⟨"gone", "v2"⟩ (by decide) (by decide)).1.trans (by decide),
    by decide, by decide⟩

end VideoComparison
